import Mathlib

/-!
Verification of the transcription-hardware core
(`src/application/backend/ai_model/ai_transcriptionv2.py`).

The Python module is shallowly embedded below.  Texts are modelled as
`List Char` (so that the character-level operations `strip`, `split`,
`rfind`, slicing are transparent), audio sample arrays as `List Int`,
and audio frames (numpy blocks delivered by the sounddevice callback) as
`List Int`.  The two external network capabilities (Google speech
recognition and Gemini text generation) are passed in as oracle
functions, mirroring the spec's interface boundary.  Fallible Python
code (raised exceptions / HTTP error responses) is modelled with
`Except`.
-/

/-- Decidable equality for `Except`, used to evaluate the embedded
fallible operations on concrete inputs. -/
instance {ε α : Type} [DecidableEq ε] [DecidableEq α] : DecidableEq (Except ε α) := fun a b =>
  match a, b with
  | .ok x, .ok y => if h : x = y then .isTrue (by rw [h]) else .isFalse (by simp [h])
  | .error x, .error y => if h : x = y then .isTrue (by rw [h]) else .isFalse (by simp [h])
  | .ok _, .error _ => .isFalse (by simp)
  | .error _, .ok _ => .isFalse (by simp)

/-- Python `\s`-style whitespace test used by `str.strip()`, `str.split()`
and the `re` whitespace class (restricted to the ASCII whitespace that
actually occurs in this code's data). -/
def isWs (c : Char) : Bool := c = ' ' || c = '\t' || c = '\n' || c = '\r'

/-- Sentence-terminal punctuation class `[.!?]` used by
`re.split(r"(?<=[.!?])\s+", ...)`, `rstrip(".!?")` and the fallback
summary's sentence-end search. -/
def isSentPunct (c : Char) : Bool := c = '.' || c = '!' || c = '?'

/-- Quote characters stripped by `.strip("\"'")` in `generate_title`. -/
def isQuote (c : Char) : Bool := c = '"' || c = Char.ofNat 39

/-- Python `str.lstrip` with an arbitrary character class. -/
def lstripP (p : Char → Bool) (l : List Char) : List Char := l.dropWhile p

/-- Python `str.rstrip` with an arbitrary character class. -/
def rstripP (p : Char → Bool) (l : List Char) : List Char :=
  (l.reverse.dropWhile p).reverse

/-- Python `str.strip` with an arbitrary character class. -/
def stripP (p : Char → Bool) (l : List Char) : List Char := rstripP p (lstripP p l)

/-- Python `str.strip()` (no argument: whitespace). -/
def strip (l : List Char) : List Char := stripP isWs l

/-- Python `str.rstrip()` (no argument: whitespace). -/
def rstripWs (l : List Char) : List Char := rstripP isWs l

/-- Python `.strip("\"'")` — strips every leading and trailing quote char. -/
def stripQuotes (l : List Char) : List Char := stripP isQuote l

/-- Python `.rstrip(".!?")` — strips every trailing sentence-punctuation char. -/
def rstripPunct (l : List Char) : List Char := rstripP isSentPunct l

/-- Python `" ".join(pieces)`. -/
def joinSp : List (List Char) → List Char
  | [] => []
  | [x] => x
  | x :: xs => x ++ ' ' :: joinSp xs

/-- Fuel-driven worker for Python `str.split()` (split on whitespace runs,
dropping empty pieces).  The fuel is an upper bound on the number of
produced words; `wsSplit` supplies `length + 1`, which always suffices
because every word consumes at least one character. -/
def wsSplitF : Nat → List Char → List (List Char)
  | 0, _ => []
  | fuel + 1, l =>
    match l.dropWhile isWs with
    | [] => []
    | c :: rest =>
      (c :: rest.takeWhile (fun x => !isWs x)) ::
        wsSplitF fuel (rest.dropWhile (fun x => !isWs x))

/-- Python `str.split()` (no argument). -/
def wsSplit (l : List Char) : List (List Char) := wsSplitF (l.length + 1) l

/-- Does the accumulator (stored reversed) end in sentence punctuation?
This implements the regex lookbehind `(?<=[.!?])`. -/
def accEndsSent (acc : List Char) : Bool :=
  match acc with
  | [] => false
  | c :: _ => isSentPunct c

/-- Fuel-driven worker for `re.split(r"(?<=[.!?])\s+", text)`: scan the
text; at a whitespace character whose predecessor is sentence
punctuation, close the current piece and consume the whole whitespace
run.  `acc` holds the current piece reversed.  Each recursive step
consumes at least one character, so fuel `length + 1` suffices. -/
def splitGoF : Nat → List Char → List Char → List (List Char)
  | 0, acc, rest => [acc.reverse ++ rest]
  | _ + 1, acc, [] => [acc.reverse]
  | fuel + 1, acc, c :: rest =>
    if isWs c && accEndsSent acc then
      acc.reverse :: splitGoF fuel [] (rest.dropWhile isWs)
    else
      splitGoF fuel (c :: acc) rest

/-- `re.split(r"(?<=[.!?])\s+", text)` — the sentence splitter used by
`_split_transcript` and `_fallback_title_text`. -/
def splitSentences (t : List Char) : List (List Char) :=
  splitGoF (t.length + 1) [] t

/-- Consecutive non-overlapping slices of size `k` (final one possibly
shorter): `[l[i:i+k] for i in range(0, len(l), k)]`.  The Python loop
raises for step `k = 0`; this total model treats `k = 0` like `k = 1`,
and every theorem below that touches slicing assumes `1 ≤ k`. -/
def sliceChunks (k : Nat) : List α → List (List α)
  | [] => []
  | c :: rest => (c :: rest.take (k - 1)) :: sliceChunks k (rest.drop (k - 1))
termination_by l => l.length
decreasing_by
  simp only [List.length_drop, List.length_cons]
  omega

/-! ## The recording session (module globals + `/record/start`, `/record/stop`)

The Python module keeps `recording_event : threading.Event` and
`audio_chunks : list[np.ndarray]` guarded by `audio_lock`.  We model the
sequential (single-thread-at-a-time) behaviour first; the interleaved
behaviour is modelled further below as a small-step action system. -/

/-- The two module globals: `recording_event.is_set()` and `audio_chunks`. -/
structure RecState where
  recording : Bool
  buffer : List (List Int)
deriving DecidableEq, Repr

/-- The `/record/start` handler body (sequential view):
`audio_chunks.clear()` under the lock, then `recording_event.set()`.
(`ensure_stream()` touches only the external audio stream.) -/
def recordStart (_s : RecState) : RecState :=
  { recording := true, buffer := [] }

/-- The sounddevice callback `audio_callback` (sequential view): append
the frame to `audio_chunks` only when `recording_event.is_set()`. -/
def audio_callback (f : List Int) (s : RecState) : RecState :=
  if s.recording then { s with buffer := s.buffer ++ [f] } else s

/-- The `/record/stop` handler front half (sequential view):
`recording_event.clear()`; under the lock take `chunks = list(audio_chunks)`
and clear `audio_chunks`; answer 400 `"No audio recorded"` if `chunks`
is empty (the spec's `EmptyRecordingError`), else
`np.concatenate(chunks)`. -/
def recordStop (s : RecState) : RecState × Except (List Char) (List Int) :=
  let chunks := s.buffer
  let s' : RecState := { recording := false, buffer := [] }
  if chunks = [] then (s', .error ("No audio recorded".data))
  else (s', .ok chunks.flatten)

/-! ## Interleaved recording model (producer thread vs. handler threads)

Each constructor is one atomic step as actually serialized by the GIL /
`audio_lock`.  Crucially, in the source the producer's
`recording_event.is_set()` check happens *outside* `audio_lock`, and the
stop handler's `recording_event.clear()` also happens *outside* and
*before* its locked buffer swap — so a callback that passed its check
can complete its append after the swap. -/

inductive SAct where
  /-- `audio_callback` reads `recording_event.is_set()`; on `true` the
  callback is committed to appending frame `f` (it becomes pending). -/
  | check (f : List Int)
  /-- `audio_callback` executes `with audio_lock: audio_chunks.append(f)`
  for a pending frame `f`. -/
  | push (f : List Int)
  /-- `/record/start`: `with audio_lock: audio_chunks.clear()`. -/
  | bufClear
  /-- `/record/start`: `recording_event.set()`. -/
  | eventSet
  /-- `/record/stop`: `recording_event.clear()` (outside the lock). -/
  | eventClear
  /-- `/record/stop`: `with audio_lock: chunks = list(audio_chunks);
  audio_chunks.clear()` — the atomic swap, emitting the drained frames. -/
  | drain
  /-- `/record/stop` builds and sends its HTTP response (stop returns). -/
  | ret
deriving DecidableEq, Repr

/-- Shared state of the interleaved model: the event flag, the frames a
callback has committed to append but not yet appended, and the buffer. -/
structure Conc where
  event : Bool
  pending : List (List Int)
  buffer : List (List Int)
deriving DecidableEq, Repr

/-- One atomic step; the second component is the drained chunk list when
the step is a `drain`. -/
def stepA (c : Conc) : SAct → Conc × Option (List (List Int))
  | .check f => (if c.event then { c with pending := c.pending ++ [f] } else c, none)
  | .push f =>
      (if c.pending.contains f then
        { c with pending := c.pending.erase f, buffer := c.buffer ++ [f] }
      else c, none)
  | .bufClear => ({ c with buffer := [] }, none)
  | .eventSet => ({ c with event := true }, none)
  | .eventClear => ({ c with event := false }, none)
  | .drain => ({ c with buffer := [] }, some c.buffer)
  | .ret => (c, none)

/-- Final state after running a list of steps. -/
def runCfg (c : Conc) : List SAct → Conc
  | [] => c
  | a :: as => runCfg (stepA c a).1 as

/-- The chunk lists returned by the drains of a run, in order. -/
def runDrains (c : Conc) : List SAct → List (List (List Int))
  | [] => []
  | a :: as => (stepA c a).2.toList ++ runDrains (stepA c a).1 as

/-- The frames actually appended to the buffer during a run (a `push`
whose frame is pending), in append order. -/
def appliedPushes (c : Conc) : List SAct → List (List Int)
  | [] => []
  | SAct.push f :: as =>
      (if c.pending.contains f then [f] else []) ++ appliedPushes (stepA c (SAct.push f)).1 as
  | a :: as => appliedPushes (stepA c a).1 as

/-- The frames carried by the `push` actions of a trace, in order. -/
def pushesOf (acts : List SAct) : List (List Int) :=
  acts.filterMap fun a => match a with | .push f => some f | _ => none

/-- Is an action a producer append (`push`)? -/
def isPush : SAct → Bool
  | .push _ => true
  | _ => false

/-! ## `_fallback_summary_text` -/

/-- Python `s.rfind(pat)` for a two-character pattern `[a, b]`: the
largest index at which `[a, b]` occurs, `-1` if none.  Scanning the
indices in increasing order and keeping the latest hit yields the
largest one. -/
def rfind2 (a b : Char) (l : List Char) : Int :=
  (List.range l.length).foldl
    (fun acc i => if (l.drop i).take 2 = [a, b] then (i : Int) else acc) (-1)

/-- `_fallback_summary_text(transcript, max_chars)` — deterministic
extractive fallback: collapse whitespace; if short enough return it;
else cut at `max_chars`, back up to the last sentence end after offset
120, else rstrip and append an ellipsis. -/
def _fallback_summary_text (transcript : List Char) (max_chars : Nat) : List Char :=
  let collapsed := joinSp (wsSplit transcript)
  if collapsed.length ≤ max_chars then collapsed
  else
    let snippet := collapsed.take max_chars
    let last_stop := max (rfind2 '.' ' ' snippet)
      (max (rfind2 '!' ' ' snippet) (rfind2 '?' ' ' snippet))
    if 120 < last_stop then strip (snippet.take (last_stop.toNat + 1))
    else rstripWs snippet ++ "...".data

/-! ## `_split_transcript` (the TextChunker) -/

/-- One flush of the accumulated sentence group:
`chunks.append(" ".join(current).strip())`. -/
def joinStrip (current : List (List Char)) : List Char := strip (joinSp current)

/-- The sentence-packing loop of `_split_transcript`: greedily pack
sentences while `current_len + len(sentence) + 1 ≤ max_chars`; an
oversized sentence flushes the pending group and is hard-sliced into
`max_chars`-sized pieces, each stripped; empty sentence units are
skipped. -/
def splitLoop (mc : Nat) : List (List Char) → List (List Char) → Nat → List (List Char)
  | [], current, _ => if current = [] then [] else [joinStrip current]
  | s :: rest, current, clen =>
    if s = [] then splitLoop mc rest current clen
    else if mc < s.length then
      (if current = [] then [] else [joinStrip current])
        ++ (sliceChunks mc s).map strip ++ splitLoop mc rest [] 0
    else if mc < clen + s.length + 1 ∧ current ≠ [] then
      joinStrip current :: splitLoop mc rest [s] s.length
    else
      splitLoop mc rest (current ++ [s]) (clen + s.length + 1)

/-- `_split_transcript(text, max_chars)`: return `[text]` when it fits,
else split into sentence units, pack them, and drop empty chunks. -/
def _split_transcript (text : List Char) (max_chars : Nat) : List (List Char) :=
  if text.length ≤ max_chars then [text]
  else (splitLoop max_chars (splitSentences text) [] 0).filter (fun c => !c.isEmpty)

/-! ## `summarize_transcript` and `generate_title`

The generative capability (`genai.GenerativeModel(...).generate_content`
followed by `_extract_text`) is abstracted as an oracle
`gen : model name → prompt → generated text`; temperature and
max-output-tokens are constants threaded unchanged into the external
call, so they are absorbed into the oracle.  The module-level
environment constants become the fields of `Cfg`. -/

structure Cfg where
  /-- Truthiness of `SUMMARY_API_KEY`. -/
  apiKey : Bool
  /-- `SUMMARY_MODEL`. -/
  summaryModel : List Char
  /-- `SUMMARY_FALLBACK_MODEL`. -/
  summaryFallbackModel : List Char
  /-- `SUMMARY_CHUNK_CHARS`. -/
  summaryChunkChars : Nat
  /-- `TITLE_MODEL`. -/
  titleModel : List Char
  /-- `TITLE_FALLBACK_MODEL`. -/
  titleFallbackModel : List Char

/-- The generative-text oracle: model name and prompt to generated text
(empty when the model returned nothing). -/
abbrev GenOracle := List Char → List Char → List Char

/-- The per-section prompt header of `summarize_transcript` (the Python
literal contains escaped `\\n`, i.e. literal backslash-n characters). -/
def chunkPromptHead : List Char :=
  ("Write a short FeedPulse-style paragraph (3-5 sentences) that captures this section clearly. "
    ++ "Use natural narrative sentences like the examples: context, discussion points, decisions, "
    ++ "responsibilities, challenges, and any numbers or dates. Preserve specific tools, components, "
    ++ "or features mentioned. Do not add labels, headings, bullets, or commentary.\\n\\n").data

/-- `chunk_prompt` for section `idx` (1-based) over `chunk`. -/
def chunkPrompt (idx : Nat) (chunk : List Char) : List Char :=
  chunkPromptHead ++ ("Section ").data ++ (toString idx).data ++ (":\\n").data ++ chunk

/-- The synthesis prompt header shared by both branches of
`summarize_transcript`. -/
def synthPromptHead : List Char :=
  ("Write a FeedPulse reflection in 2-4 paragraphs, similar in tone and structure to the examples. "
    ++ "Use natural, complete sentences and a cohesive narrative.\\n"
    ++ "Paragraph 1: brief intro about the meeting/session (context, purpose, overall tone).\\n"
    ++ "Paragraph 2: detailed discussion with concrete points, decisions, responsibilities, constraints, and "
    ++ "specific tools/components/features mentioned. Include any numbers, dates, or targets when present.\\n"
    ++ "Paragraph 3 (and optional 4): wrap up with key takeaways, challenges, and clear next steps.\\n"
    ++ "Do not add labels, headings, bullets, or commentary. Avoid listing attendees unless essential.\\n\\n").data

/-- The synthesis prompt over the combined per-chunk notes. -/
def synthPromptNotes (combined : List Char) : List Char :=
  synthPromptHead ++ ("Notes:\\n").data ++ combined

/-- The synthesis prompt over the whole transcript (single-chunk case). -/
def synthPromptTranscript (text : List Char) : List Char :=
  synthPromptHead ++ ("Transcript:\\n").data ++ text

/-- One generation attempt followed by the primary → fallback-model
retry used identically for chunk summaries, the final summary and the
title: retry only when the first result is empty and the fallback model
is truthy and distinct. -/
def genWithFallback (gen : GenOracle) (primary fallback : List Char)
    (prompt fallbackPrompt : List Char) : List Char :=
  let t1 := gen primary prompt
  if t1 = [] && !(fallback = []) && !(fallback = primary) then gen fallback fallbackPrompt
  else t1

/-- The per-chunk body of the `for idx, chunk in enumerate(chunks, 1)`
loop: primary model, fallback model, then `_fallback_summary_text(chunk, 400)`. -/
def chunkSummaryOne (cfg : Cfg) (gen : GenOracle) (idx : Nat) (chunk : List Char) : List Char :=
  let p := chunkPrompt idx chunk
  let t := genWithFallback gen cfg.summaryModel cfg.summaryFallbackModel p p
  if t = [] then _fallback_summary_text chunk 400 else t

/-- `chunk_summaries` accumulated over `enumerate(chunks, start=1)`. -/
def buildChunkSummaries (cfg : Cfg) (gen : GenOracle) (chunks : List (List Char)) : List (List Char) :=
  (chunks.enumFrom 1).map fun ic => chunkSummaryOne cfg gen ic.1 ic.2

/-- The tail of `summarize_transcript` shared by both branches: generate
over `prompt` with the primary model, retry on the fallback model, and
fall back to `_fallback_summary_text(text)` (full stripped transcript,
default bound 1200) when both are empty. -/
def finishSummary (cfg : Cfg) (gen : GenOracle) (text prompt : List Char) : List Char :=
  let s := genWithFallback gen cfg.summaryModel cfg.summaryFallbackModel prompt prompt
  if s = [] then _fallback_summary_text text 1200 else s

/-- `summarize_transcript(transcript)`: missing credentials raise before
anything else; a whitespace-only transcript short-circuits to the empty
summary; otherwise chunk, per-chunk summarize when more than one chunk,
and synthesize. -/
def summarize_transcript (cfg : Cfg) (gen : GenOracle) (transcript : List Char) :
    Except (List Char) (List Char) :=
  if cfg.apiKey = false then .error ("Missing GOOGLE_SUMMARY_KEY for summarization.".data)
  else
    let text := strip transcript
    if text = [] then .ok []
    else
      let chunks := _split_transcript text (max 1000 cfg.summaryChunkChars)
      if 1 < chunks.length then
        let chunkSummaries := buildChunkSummaries cfg gen chunks
        let combined := strip (joinSp chunkSummaries)
        .ok (finishSummary cfg gen text (synthPromptNotes combined))
      else
        .ok (finishSummary cfg gen text (synthPromptTranscript text))

/-- `_fallback_title_text(transcript, max_words=12)`: first sentence of
the stripped transcript, truncated to `max_words` words; the constant
default when there are no words. -/
def _fallback_title_text (transcript : List Char) (max_words : Nat) : List Char :=
  if transcript = [] then ("New Recording").data
  else
    let first_sentence := (splitSentences (strip transcript)).headD []
    let words := wsSplit first_sentence
    if words = [] then ("New Recording").data
    else joinSp (words.take max_words)

/-- The primary title prompt (these Python literals use real newlines). -/
def titlePrompt (text : List Char) : List Char :=
  ("Write one short sentence (8-12 words) that summarizes the transcript. "
    ++ "Use sentence case, avoid names unless essential, and no quotes, labels, or trailing punctuation.\n\n"
    ++ "Transcript:\n").data ++ text

/-- The differently-worded fallback title prompt. -/
def titleFallbackPrompt (text : List Char) : List Char :=
  ("Create a short neutral title (6-10 words) for this meeting transcript. "
    ++ "Do not include names. Return only the title text with no quotes or trailing punctuation.\n\n"
    ++ "Transcript:\n").data ++ text

/-- The cleaning line of `generate_title`:
`" ".join(title_text.split()).strip().strip("\"'").rstrip(".!?")`. -/
def cleanTitle (t : List Char) : List Char :=
  rstripPunct (stripQuotes (strip (joinSp (wsSplit t))))

/-- `generate_title(transcript)`: constant default on whitespace-only
input; heuristic fallback when uncredentialed; otherwise one primary
generation, one fallback-model retry with the reworded prompt, then the
cleaning line, falling back heuristically when everything is empty. -/
def generate_title (cfg : Cfg) (gen : GenOracle) (transcript : List Char) : List Char :=
  let text := strip transcript
  if text = [] then ("New Recording").data
  else if cfg.apiKey = false then _fallback_title_text text 12
  else
    let t := genWithFallback gen cfg.titleModel cfg.titleFallbackModel
      (titlePrompt text) (titleFallbackPrompt text)
    if t = [] then _fallback_title_text text 12
    else
      let cleaned := cleanTitle t
      if cleaned = [] then _fallback_title_text text 12 else cleaned

/-! ## `_recognize_chunk` and `transcribe_audio` (the ChunkedTranscriber)

The recognition capability (`speech_client.recognize` on the WAV-encoded
window) is abstracted as an oracle from the window's samples to
`response.results`, each result carrying its alternatives' transcripts
and its `language_code` (a plain protobuf string, possibly empty).  A
raised recognition error is an `Except.error`. -/

/-- One element of `response.results`: the transcripts of its
alternatives, and its `language_code`. -/
abbrev RecResult := List (List Char) × List Char

/-- The recognition oracle for one window of samples. -/
abbrev RecOracle := List Int → Except (List Char) (List RecResult)

/-- The result-merging loop of `_recognize_chunk`: take the first
alternative of each result that has one; remember the `language_code`
of the first such result. -/
def mergeResults : List RecResult → List (List Char) → Option (List Char) →
    List (List Char) × Option (List Char)
  | [], parts, lang => (parts, lang)
  | r :: rs, parts, lang =>
    match r.1 with
    | [] => mergeResults rs parts lang
    | alt0 :: _ =>
      mergeResults rs (parts ++ [alt0]) (if lang = none then some r.2 else lang)

/-- The text `_recognize_chunk` produces from a successful response. -/
def recChunkText (rs : List RecResult) : List Char :=
  strip (joinSp (mergeResults rs [] none).1)

/-- The language `_recognize_chunk` produces from a successful response. -/
def recChunkLang (rs : List RecResult) : Option (List Char) :=
  (mergeResults rs [] none).2

/-- `_recognize_chunk(samples)`: empty windows short-circuit without a
network call; otherwise one recognition call, whose results are merged
into `" ".join(parts).strip()` and the first language code. -/
def _recognize_chunk (api : RecOracle) (samples : List Int) :
    Except (List Char) (List Char × Option (List Char)) :=
  if samples.length = 0 then .ok ([], none)
  else
    match api samples with
    | .error e => .error e
    | .ok rs => .ok (recChunkText rs, recChunkLang rs)

/-- Python truthiness of `result.get("language")`: a present, non-empty
language string. -/
def truthyLang : Option (List Char) → Bool
  | none => false
  | some s => !s.isEmpty

/-- The window loop of `transcribe_audio`: sequential recognition over
the windows, collecting non-empty texts and the first truthy language;
the first failure aborts the whole loop. -/
def transcribeLoop (api : RecOracle) :
    List (List Int) → List (List Char) → Option (List Char) →
    Except (List Char) (List Char × Option (List Char))
  | [], parts, lang => .ok (strip (joinSp parts), lang)
  | w :: ws, parts, lang =>
    match _recognize_chunk api w with
    | .error e => .error e
    | .ok (t, l) =>
      transcribeLoop api ws (if t = [] then parts else parts ++ [t])
        (if lang = none && truthyLang l then l else lang)

/-- `transcribe_audio(samples)` with `RATE = rate` and
`TRANSCRIPTION_CHUNK_SECONDS = cfgSecs`: empty input short-circuits;
input of at most one window is recognized in a single call; longer
input is windowed into `rate * max(1, cfgSecs)`-sample slices. -/
def transcribe_audio (api : RecOracle) (rate cfgSecs : Nat) (samples : List Int) :
    Except (List Char) (List Char × Option (List Char)) :=
  if samples.length = 0 then .ok ([], none)
  else
    let size := rate * max 1 cfgSecs
    if samples.length ≤ size then _recognize_chunk api samples
    else transcribeLoop api (sliceChunks size samples) [] none

/-- The windows passed to the recognition capability, in call order,
cut short at the first failing call (which is still counted: the
capability was invoked on it). -/
def callsLoop (api : RecOracle) : List (List Int) → List (List Int)
  | [] => []
  | w :: ws =>
    w :: (match _recognize_chunk api w with
          | .error _ => []
          | .ok _ => callsLoop api ws)

/-- The recognition calls `transcribe_audio` issues on `samples`. -/
def transcribeCalls (api : RecOracle) (rate cfgSecs : Nat) (samples : List Int) :
    List (List Int) :=
  if samples.length = 0 then []
  else
    let size := rate * max 1 cfgSecs
    if samples.length ≤ size then [samples]
    else callsLoop api (sliceChunks size samples)

/-- The first truthy (present and non-empty) language of a window list —
the merge rule the spec states for the final language. -/
def firstTruthyLang : List (Option (List Char)) → Option (List Char)
  | [] => none
  | l :: ls => if truthyLang l then l else firstTruthyLang ls

/-- Stated from the spec claim wording, for comparison with the code:
strip at most one leading and one trailing quote character (a single
layer of wrapping quotes).  Python `.strip("\"'")` instead strips every
leading/trailing quote character. -/
def stripOneQuoteLayer (l : List Char) : List Char :=
  let l1 := match l with
    | c :: rest => if isQuote c then rest else l
    | [] => l
  match l1.reverse with
  | c :: rest => if isQuote c then rest.reverse else l1
  | [] => l1

/-- The title post-processing as the spec claim words it: collapse
whitespace, strip a single layer of wrapping quotes, strip trailing
sentence punctuation. -/
def cleanTitleOneLayer (t : List Char) : List Char :=
  rstripPunct (stripOneQuoteLayer (strip (joinSp (wsSplit t))))

/-! # Theorems

General lemmas about the Python string helpers, then one theorem (plus
counterexample / witness where applicable) per spec claim. -/

theorem mem_takeWhile_true {p : α → Bool} :
    ∀ {l : List α} {c : α}, c ∈ l.takeWhile p → p c = true
  | a :: t, c, h => by
    rw [List.takeWhile_cons] at h
    cases hpa : p a with
    | false => simp [hpa] at h
    | true =>
      simp [hpa] at h
      rcases h with h | h
      · exact h ▸ hpa
      · exact mem_takeWhile_true h

theorem lenDropWhileLe (p : α → Bool) : ∀ l : List α, (l.dropWhile p).length ≤ l.length := by
  intro l
  induction l with
  | nil => simp
  | cons a t ih =>
    rw [List.dropWhile_cons]
    cases hpa : p a with
    | false => simp
    | true =>
      simp only [if_pos rfl, ite_true, List.length_cons]
      exact le_trans ih (Nat.le_succ _)

theorem dropWhile_eq_drop (p : α → Bool) : ∀ l : List α, ∃ n, l.dropWhile p = l.drop n := by
  intro l
  induction l with
  | nil => exact ⟨0, rfl⟩
  | cons a t ih =>
    rw [List.dropWhile_cons]
    cases hpa : p a with
    | false => exact ⟨0, by simp⟩
    | true =>
      obtain ⟨n, hn⟩ := ih
      exact ⟨n + 1, by simpa using hn⟩

/-- `rstripP` returns a prefix of its input. -/
theorem rstripP_prefix (p : Char → Bool) (l : List Char) : ∃ m, l = rstripP p l ++ m := by
  obtain ⟨n, hn⟩ := dropWhile_eq_drop p l.reverse
  refine ⟨(l.reverse.take n).reverse, ?_⟩
  rw [rstripP, hn, ← List.reverse_append, List.take_append_drop, List.reverse_reverse]

/-- The head of a non-empty `dropWhile` result fails the predicate. -/
theorem dropWhile_head_false {p : α → Bool} :
    ∀ {l : List α} {a : α} {t : List α}, l.dropWhile p = a :: t → p a = false
  | x :: xs, a, t, h => by
    rw [List.dropWhile_cons] at h
    cases hpx : p x with
    | false =>
      simp [hpx] at h
      exact h.1 ▸ hpx
    | true =>
      simp [hpx] at h
      exact dropWhile_head_false h

/-- The head of a non-empty `stripP` result fails the predicate. -/
theorem stripP_head_false {p : Char → Bool} {l : List Char} {a : Char} {t : List Char}
    (h : stripP p l = a :: t) : p a = false := by
  obtain ⟨m, hm⟩ := rstripP_prefix p (lstripP p l)
  rw [stripP] at h
  rw [h] at hm
  have hw : l.dropWhile p = a :: (t ++ m) := by simpa [lstripP] using hm
  exact dropWhile_head_false hw

/-- The last element of a `stripP` result fails the predicate. -/
theorem stripP_last_false {p : Char → Bool} {l : List Char} {z : List Char} {b : Char}
    (h : stripP p l = z ++ [b]) : p b = false := by
  rw [stripP, rstripP] at h
  have hy : (lstripP p l).reverse.dropWhile p = b :: z.reverse := by
    have := congrArg List.reverse h
    simpa using this
  exact dropWhile_head_false hy

/-- `rstripP` leaves a list ending in a non-`p` element unchanged. -/
theorem rstripP_concat_of_last {p : Char → Bool} {l : List Char} {b : Char}
    (hb : p b = false) : rstripP p (l ++ [b]) = l ++ [b] := by
  rw [rstripP, List.reverse_append]
  simp only [List.reverse_cons, List.reverse_nil, List.nil_append, List.singleton_append,
    List.dropWhile_cons, hb]
  simp

/-- `strip` leaves a list with non-whitespace ends unchanged. -/
theorem strip_of_ends {a b : Char} {m : List Char} (ha : isWs a = false) (hb : isWs b = false) :
    strip (a :: (m ++ [b])) = a :: (m ++ [b]) := by
  have h1 : lstripP isWs (a :: (m ++ [b])) = a :: (m ++ [b]) := by
    simp [lstripP, List.dropWhile_cons, ha]
  rw [strip, stripP, h1]
  have h2 : a :: (m ++ [b]) = (a :: m) ++ [b] := by simp
  rw [h2]
  exact rstripP_concat_of_last hb

/-- `stripP` erases a list iff every element satisfies the predicate. -/
theorem stripP_eq_nil_iff {p : Char → Bool} {l : List Char} :
    stripP p l = [] ↔ ∀ c ∈ l, p c = true := by
  rw [stripP, rstripP, List.reverse_eq_nil_iff, List.dropWhile_eq_nil_iff]
  constructor
  · intro h c hc
    by_cases hcd : c ∈ l.dropWhile p
    · exact h c (by simpa [lstripP] using List.mem_reverse.mpr hcd)
    · have hct : c ∈ l.takeWhile p := by
        have hsplit := List.takeWhile_append_dropWhile p l
        rw [← hsplit] at hc
        rcases List.mem_append.mp hc with h1 | h1
        · exact h1
        · exact absurd h1 hcd
      exact mem_takeWhile_true hct
  · intro h c hc
    refine h c ?_
    have hcd : c ∈ l.dropWhile p := by simpa [lstripP] using hc
    have hsplit := List.takeWhile_append_dropWhile p l
    rw [← hsplit]
    exact List.mem_append.mpr (Or.inr hcd)

/-- `strip` is idempotent. -/
theorem strip_fix (l : List Char) : strip (strip l) = strip l := by
  rcases hs : strip l with _ | ⟨a, t⟩
  · rfl
  · have ha : isWs a = false := stripP_head_false hs
    rcases List.eq_nil_or_concat t with rfl | ⟨m, b, hmb⟩
    · have h1 : lstripP isWs [a] = [a] := by simp [lstripP, List.dropWhile_cons, ha]
      rw [strip, stripP, h1]
      have h2 : [a] = ([] : List Char) ++ [a] := by simp
      rw [h2]
      exact rstripP_concat_of_last ha
    · rw [List.concat_eq_append] at hmb
      subst hmb
      have hb : isWs b = false := stripP_last_false (z := a :: m) (by simpa using hs)
      exact strip_of_ends ha hb

theorem joinSp_ne_nil {x : List Char} {xs : List (List Char)} (hx : x ≠ []) :
    joinSp (x :: xs) ≠ [] := by
  cases xs <;> simp [joinSp, hx]

theorem joinSp_cons_cons (x y : List Char) (ys : List (List Char)) :
    joinSp (x :: y :: ys) = x ++ ' ' :: joinSp (y :: ys) := rfl

theorem joinSp_append {as bs : List (List Char)} (ha : as ≠ []) (hb : bs ≠ []) :
    joinSp (as ++ bs) = joinSp as ++ ' ' :: joinSp bs := by
  induction as with
  | nil => exact absurd rfl ha
  | cons a as ih =>
    cases as with
    | nil =>
      cases bs with
      | nil => exact absurd rfl hb
      | cons b bs => rfl
    | cons a2 as2 =>
      have h2 : joinSp ((a2 :: as2) ++ bs) = joinSp (a2 :: as2) ++ ' ' :: joinSp bs :=
        ih (by simp)
      calc joinSp ((a :: a2 :: as2) ++ bs)
          = a ++ ' ' :: joinSp ((a2 :: as2) ++ bs) := rfl
        _ = a ++ ' ' :: (joinSp (a2 :: as2) ++ ' ' :: joinSp bs) := by rw [h2]
        _ = joinSp (a :: a2 :: as2) ++ ' ' :: joinSp bs := by
            simp [joinSp_cons_cons, List.append_assoc]

/-- A space-join of non-empty whitespace-stripped pieces is itself
whitespace-stripped. -/
theorem strip_joinSp_eq {cur : List (List Char)}
    (h : ∀ u ∈ cur, u ≠ [] ∧ strip u = u) (hc : cur ≠ []) :
    strip (joinSp cur) = joinSp cur := by
  obtain ⟨u, us, rfl⟩ := List.exists_cons_of_ne_nil hc
  obtain ⟨hu, hsu⟩ := h u (by simp)
  obtain ⟨a, t, rfl⟩ := List.exists_cons_of_ne_nil hu
  have ha : isWs a = false := stripP_head_false hsu
  rcases List.eq_nil_or_concat us with rfl | ⟨us', v, husv⟩
  · simpa [joinSp] using hsu
  · rw [List.concat_eq_append] at husv
    subst husv
    obtain ⟨hv, hsv⟩ := h v (by simp)
    rcases List.eq_nil_or_concat v with rfl | ⟨v', b, hvb⟩
    · exact absurd rfl hv
    rw [List.concat_eq_append] at hvb
    subst hvb
    have hb : isWs b = false := stripP_last_false hsv
    have hj : joinSp (((a :: t) :: us') ++ [v' ++ [b]]) =
        joinSp ((a :: t) :: us') ++ ' ' :: (v' ++ [b]) :=
      joinSp_append (by simp) (by simp)
    obtain ⟨Jt, hJt⟩ : ∃ Jt, joinSp ((a :: t) :: us') = a :: Jt := by
      cases us' with
      | nil => exact ⟨t, rfl⟩
      | cons w ws => exact ⟨t ++ ' ' :: joinSp (w :: ws), rfl⟩
    have hshape : joinSp ((a :: t) :: (us' ++ [v' ++ [b]])) =
        a :: ((Jt ++ ' ' :: v') ++ [b]) := by
      have hcons : (a :: t) :: (us' ++ [v' ++ [b]]) = ((a :: t) :: us') ++ [v' ++ [b]] := by
        simp
      rw [hcons, hj, hJt]
      simp [List.append_assoc]
    rw [hshape]
    exact strip_of_ends ha hb

/-! ## Recording-session lemmas -/

theorem foldl_audio_callback (fs : List (List Int)) (buf : List (List Int)) :
    fs.foldl (fun s f => audio_callback f s) ⟨true, buf⟩ = ⟨true, buf ++ fs⟩ := by
  induction fs generalizing buf with
  | nil => simp
  | cons f fs ih =>
    have h1 : audio_callback f ⟨true, buf⟩ = ⟨true, buf ++ [f]⟩ := by
      simp [audio_callback]
    rw [List.foldl_cons, h1, ih]
    simp

/-- Any non-`push` step keeps an empty buffer empty. -/
theorem runCfg_buffer_of_no_push (evs : List SAct)
    (hevs : ∀ a ∈ evs, isPush a = false) :
    ∀ c : Conc, c.buffer = [] → (runCfg c evs).buffer = [] := by
  induction evs with
  | nil => intro c hc; exact hc
  | cons a as ih =>
    intro c hc
    have has : ∀ x ∈ as, isPush x = false := fun x hx => hevs x (by simp [hx])
    refine ih has (stepA c a).1 ?_
    cases a with
    | check f => by_cases h : c.event <;> simp [stepA, h, hc]
    | push f => simpa [isPush] using hevs (SAct.push f) (by simp)
    | bufClear => simp [stepA]
    | eventSet => simp [stepA, hc]
    | eventClear => simp [stepA, hc]
    | drain => simp [stepA]
    | ret => simp [stepA, hc]

/-- Frame conservation: in any interleaving without a `/record/start`
buffer clear, the frames delivered by the drains followed by the frames
left in the buffer are exactly the initial buffer followed by the
appended frames, in order. -/
theorem runA_conservation : ∀ (acts : List SAct) (c : Conc),
    (∀ a ∈ acts, a ≠ SAct.bufClear) →
    (runDrains c acts).flatten ++ (runCfg c acts).buffer = c.buffer ++ appliedPushes c acts := by
  intro acts
  induction acts with
  | nil => intro c _; simp [runDrains, runCfg, appliedPushes]
  | cons a as ih =>
    intro c hno
    have has : ∀ x ∈ as, x ≠ SAct.bufClear := fun x hx => hno x (by simp [hx])
    cases a with
    | check f =>
      have := ih (stepA c (SAct.check f)).1 has
      by_cases h : c.event <;>
        simpa [runDrains, runCfg, appliedPushes, stepA, h] using this
    | push f =>
      have := ih (stepA c (SAct.push f)).1 has
      cases hp : c.pending.contains f with
      | true =>
        have hm : f ∈ c.pending := by simpa using hp
        simpa [runDrains, runCfg, appliedPushes, stepA, hm, List.append_assoc] using this
      | false =>
        have hm : f ∉ c.pending := by simpa using hp
        simpa [runDrains, runCfg, appliedPushes, stepA, hm] using this
    | bufClear => exact absurd rfl (hno SAct.bufClear (by simp))
    | eventSet =>
      have := ih (stepA c SAct.eventSet).1 has
      simpa [runDrains, runCfg, appliedPushes, stepA] using this
    | eventClear =>
      have := ih (stepA c SAct.eventClear).1 has
      simpa [runDrains, runCfg, appliedPushes, stepA] using this
    | drain =>
      have := ih (stepA c SAct.drain).1 has
      simp only [stepA] at this
      simp [runDrains, runCfg, appliedPushes, stepA, List.append_assoc, this]
    | ret =>
      have := ih (stepA c SAct.ret).1 has
      simpa [runDrains, runCfg, appliedPushes, stepA] using this

/-- Drained frames plus leftover buffer always form a subsequence of the
initial buffer followed by the appended frames (a `/record/start` can
only delete frames, never duplicate them). -/
theorem runA_sublist : ∀ (acts : List SAct) (c : Conc),
    List.Sublist ((runDrains c acts).flatten ++ (runCfg c acts).buffer)
      (c.buffer ++ appliedPushes c acts) := by
  intro acts
  induction acts with
  | nil => intro c; simp [runDrains, runCfg, appliedPushes]
  | cons a as ih =>
    intro c
    cases a with
    | check f =>
      have := ih (stepA c (SAct.check f)).1
      by_cases h : c.event <;>
        simpa [runDrains, runCfg, appliedPushes, stepA, h] using this
    | push f =>
      have := ih (stepA c (SAct.push f)).1
      cases hp : c.pending.contains f with
      | true =>
        have hm : f ∈ c.pending := by simpa using hp
        simpa [runDrains, runCfg, appliedPushes, stepA, hm, List.append_assoc] using this
      | false =>
        have hm : f ∉ c.pending := by simpa using hp
        simpa [runDrains, runCfg, appliedPushes, stepA, hm] using this
    | bufClear =>
      have := ih (stepA c SAct.bufClear).1
      simp only [runDrains, runCfg, appliedPushes, stepA] at this ⊢
      simp only [Option.toList_none, List.nil_append] at this ⊢
      exact this.trans (List.sublist_append_right _ _)
    | eventSet =>
      have := ih (stepA c SAct.eventSet).1
      simpa [runDrains, runCfg, appliedPushes, stepA] using this
    | eventClear =>
      have := ih (stepA c SAct.eventClear).1
      simpa [runDrains, runCfg, appliedPushes, stepA] using this
    | drain =>
      have := ih (stepA c SAct.drain).1
      simp only [stepA] at this
      simp only [runDrains, runCfg, appliedPushes, stepA, Option.toList_some,
        List.singleton_append, List.flatten_cons, List.append_assoc]
      exact List.Sublist.append_left (by simpa using this) c.buffer
    | ret =>
      have := ih (stepA c SAct.ret).1
      simpa [runDrains, runCfg, appliedPushes, stepA] using this

/-- The frames actually appended are a subsequence of the frames the
`push` actions carry. -/
theorem appliedPushes_sublist : ∀ (acts : List SAct) (c : Conc),
    List.Sublist (appliedPushes c acts) (pushesOf acts) := by
  intro acts
  induction acts with
  | nil => intro c; simp [appliedPushes, pushesOf]
  | cons a as ih =>
    intro c
    cases a with
    | push f =>
      cases hp : c.pending.contains f with
      | true =>
        have hm : f ∈ c.pending := by simpa using hp
        have hx : appliedPushes c (SAct.push f :: as) =
            f :: appliedPushes (stepA c (SAct.push f)).1 as := by
          simp [appliedPushes, hm]
        rw [hx]
        have hy : pushesOf (SAct.push f :: as) = f :: pushesOf as := by
          simp [pushesOf, List.filterMap_cons]
        rw [hy]
        exact (ih _).cons₂ f
      | false =>
        have hm : f ∉ c.pending := by simpa using hp
        have hx : appliedPushes c (SAct.push f :: as) =
            appliedPushes (stepA c (SAct.push f)).1 as := by
          simp [appliedPushes, hm]
        rw [hx]
        have hy : pushesOf (SAct.push f :: as) = f :: pushesOf as := by
          simp [pushesOf, List.filterMap_cons]
        rw [hy]
        exact (ih _).cons f
    | check f => simpa [appliedPushes, pushesOf, List.filterMap_cons] using ih (stepA c (SAct.check f)).1
    | bufClear => simpa [appliedPushes, pushesOf, List.filterMap_cons] using ih (stepA c SAct.bufClear).1
    | eventSet => simpa [appliedPushes, pushesOf, List.filterMap_cons] using ih (stepA c SAct.eventSet).1
    | eventClear => simpa [appliedPushes, pushesOf, List.filterMap_cons] using ih (stepA c SAct.eventClear).1
    | drain => simpa [appliedPushes, pushesOf, List.filterMap_cons] using ih (stepA c SAct.drain).1
    | ret => simpa [appliedPushes, pushesOf, List.filterMap_cons] using ih (stepA c SAct.ret).1

/-! ## Claim C1 -/

/-- Claim C1, counterexample to the universally quantified form: for the
empty sequence of `appendFrame` calls between `start()` and `stop()`,
`stop()` does not return the (empty) concatenation of the appended
frames — it fails with the `EmptyRecordingError` response instead. -/
theorem C1_empty_counterexample :
    recordStop (recordStart ⟨false, []⟩) =
      (⟨false, []⟩, .error ("No audio recorded".data)) ∧
    (recordStop (recordStart ⟨false, []⟩)).2 ≠
      .ok (([] : List (List Int)).flatten) := by
  constructor
  · rfl
  · decide

/-- Claim C1 (amended): for any NON-empty sequence of `appendFrame`
calls issued between `start()` and `stop()` with no other interleaved
command, `stop()` returns exactly the ordered concatenation of those
frames, and the session buffer is empty immediately after `stop()`
returns; for the empty sequence `stop()` fails with
`EmptyRecordingError` (and the buffer is likewise empty). -/
theorem C1_stop_returns_concat (s0 : RecState) (fs : List (List Int)) (hfs : fs ≠ []) :
    recordStop (fs.foldl (fun s f => audio_callback f s) (recordStart s0)) =
      (⟨false, []⟩, .ok fs.flatten) := by
  have h0 : recordStart s0 = ⟨true, []⟩ := rfl
  rw [h0, foldl_audio_callback fs []]
  simp [recordStop, hfs]

/-- Witness for `C1_stop_returns_concat` at a concrete input. -/
theorem C1_stop_returns_concat_witness :
    ([[1, 2], [3]] : List (List Int)) ≠ [] ∧
    recordStop (([[1, 2], [3]] : List (List Int)).foldl
        (fun s f => audio_callback f s) (recordStart ⟨false, []⟩)) =
      (⟨false, []⟩, .ok [1, 2, 3]) := by
  refine ⟨by decide, ?_⟩
  rw [C1_stop_returns_concat ⟨false, []⟩ [[1, 2], [3]] (by decide)]
  rfl

/-! ## Claim C3 -/

/-- Claim C3, counterexample: calling `start()` while the state is
already Recording is NOT a no-op — the handler clears the buffer
unconditionally, discarding the frame already recorded. -/
theorem C3_not_noop_counterexample :
    recordStart ⟨true, [[1]]⟩ ≠ ⟨true, [[1]]⟩ ∧
    (recordStart ⟨true, [[1]]⟩).buffer = [] := by
  decide

/-- Claim C3 (amended): `start()` unconditionally clears the buffer and
sets the state to Recording, whatever the current state; it is
idempotent only in the sense that an immediately repeated `start()`
produces the same state, and it leaves the session unchanged exactly
when the state is already Recording with an empty buffer. -/
theorem C3_start_clears (s : RecState) :
    recordStart (recordStart s) = recordStart s ∧
    (recordStart s = s ↔ s.recording = true ∧ s.buffer = []) := by
  refine ⟨rfl, ?_, ?_⟩
  · intro h
    rw [← h]
    exact ⟨rfl, rfl⟩
  · rintro ⟨h1, h2⟩
    cases s
    simp_all [recordStart]

/-! ## Claim C2 -/

/-- Claim C2, counterexample: an interleaving of the producer with one
`stop()` in which the producer's recording check passes before the
stop's `recording_event.clear()`, but its locked append lands after the
stop's buffer swap and before the stop's HTTP response.  Frame `[2]` is
appended before `stop()` returns, yet it is in no drained chunk and is
destroyed by the next `start()`'s buffer clear: the state transition and
the swap are not atomic under the mutex, and a frame is lost. -/
theorem C2_lost_frame_counterexample :
    appliedPushes ⟨false, [], []⟩
        [SAct.bufClear, SAct.eventSet, SAct.check [1], SAct.push [1], SAct.check [2],
         SAct.eventClear, SAct.drain, SAct.push [2], SAct.ret,
         SAct.bufClear, SAct.eventSet, SAct.eventClear, SAct.drain, SAct.ret]
      = [[1], [2]] ∧
    runDrains ⟨false, [], []⟩
        [SAct.bufClear, SAct.eventSet, SAct.check [1], SAct.push [1], SAct.check [2],
         SAct.eventClear, SAct.drain, SAct.push [2], SAct.ret,
         SAct.bufClear, SAct.eventSet, SAct.eventClear, SAct.drain, SAct.ret]
      = [[[1]], []] ∧
    (runCfg ⟨false, [], []⟩
        [SAct.bufClear, SAct.eventSet, SAct.check [1], SAct.push [1], SAct.check [2],
         SAct.eventClear, SAct.drain, SAct.push [2], SAct.ret,
         SAct.bufClear, SAct.eventSet, SAct.eventClear, SAct.drain, SAct.ret]).buffer
      = [] ∧
    [2] ∉ (runDrains ⟨false, [], []⟩
        [SAct.bufClear, SAct.eventSet, SAct.check [1], SAct.push [1], SAct.check [2],
         SAct.eventClear, SAct.drain, SAct.push [2], SAct.ret,
         SAct.bufClear, SAct.eventSet, SAct.eventClear, SAct.drain, SAct.ret]).flatten := by
  decide

/-- Claim C2 (amended): the buffer swap of `stop()` is atomic under the
mutex, and the model validates (a) conservation — in any interleaving
without a `start()` buffer clear, the drained chunks followed by the
remaining buffer are exactly the initial buffer followed by the
completed appends, in order, so no completed append is lost or
duplicated between drains — and (b) no frame is ever delivered to more
than one drain.  However the state-to-Idle transition happens outside
the mutex before the swap, so a frame whose recording check precedes the
event clear may be appended after the swap; such a frame is not included
in that stop's chunk and is destroyed by the next `start()`
(`C2_lost_frame_counterexample`). -/
theorem C2_drain_conservation (c : Conc) (acts : List SAct) :
    ((∀ a ∈ acts, a ≠ SAct.bufClear) →
      (runDrains c acts).flatten ++ (runCfg c acts).buffer =
        c.buffer ++ appliedPushes c acts) ∧
    (c.buffer = [] → (pushesOf acts).Nodup → ((runDrains c acts).flatten).Nodup) := by
  constructor
  · exact fun h => runA_conservation acts c h
  · intro hb hnd
    have h1 := runA_sublist acts c
    rw [hb, List.nil_append] at h1
    have h2 : List.Sublist ((runDrains c acts).flatten ++ (runCfg c acts).buffer)
        (pushesOf acts) := h1.trans (appliedPushes_sublist acts c)
    have h3 : List.Sublist ((runDrains c acts).flatten) (pushesOf acts) :=
      (List.sublist_append_left _ _).trans h2
    exact hnd.sublist h3

/-- Witness for `C2_drain_conservation` at a concrete trace. -/
theorem C2_drain_conservation_witness :
    (∀ a ∈ [SAct.eventSet, SAct.check [1], SAct.push [1], SAct.eventClear, SAct.drain],
      a ≠ SAct.bufClear) ∧
    (pushesOf [SAct.eventSet, SAct.check [1], SAct.push [1], SAct.eventClear, SAct.drain]).Nodup ∧
    (runDrains ⟨false, [], []⟩
          [SAct.eventSet, SAct.check [1], SAct.push [1], SAct.eventClear, SAct.drain]).flatten ++
        (runCfg ⟨false, [], []⟩
          [SAct.eventSet, SAct.check [1], SAct.push [1], SAct.eventClear, SAct.drain]).buffer =
      (⟨false, [], []⟩ : Conc).buffer ++
        appliedPushes ⟨false, [], []⟩
          [SAct.eventSet, SAct.check [1], SAct.push [1], SAct.eventClear, SAct.drain] ∧
    ((runDrains ⟨false, [], []⟩
        [SAct.eventSet, SAct.check [1], SAct.push [1], SAct.eventClear, SAct.drain]).flatten).Nodup :=
  ⟨by decide, by decide,
    (C2_drain_conservation ⟨false, [], []⟩ _).1 (by decide),
    (C2_drain_conservation ⟨false, [], []⟩ _).2 (by decide) (by decide)⟩

/-! ## Claim C8 -/

/-- Claim C8, counterexample: with a producer append in flight across
the first drain (its recording check passed before the event clear), two
interleaved `stop()` calls BOTH observe a non-empty buffer — the second
does not deterministically fail with `EmptyRecordingError`. -/
theorem C8_double_stop_counterexample :
    runDrains ⟨false, [], []⟩
        [SAct.bufClear, SAct.eventSet, SAct.check [1], SAct.push [1], SAct.check [2],
         SAct.eventClear, SAct.drain, SAct.push [2], SAct.eventClear, SAct.drain]
      = [[[1]], [[2]]] ∧
    ([[1]] : List (List Int)) ≠ [] ∧ ([[2]] : List (List Int)) ≠ [] := by
  decide

/-- Claim C8 (amended): `stop()` on a fresh idle session fails with
`EmptyRecordingError`; `stop()` immediately after any `stop()` (an
already-drained session) fails with `EmptyRecordingError`; and of two
concurrent `stop()` calls, in every interleaving in which no producer
append completes between their two swaps, the second swap observes an
empty buffer — so the second stop deterministically fails with
`EmptyRecordingError`.  A completed in-flight append between the swaps
breaks the claimed guarantee (`C8_double_stop_counterexample`). -/
theorem C8_stop_empty_fails (s : RecState) (c : Conc) (evs : List SAct)
    (hevs : ∀ a ∈ evs, isPush a = false) :
    (recordStop ⟨false, []⟩).2 = .error ("No audio recorded".data) ∧
    (recordStop (recordStop s).1).2 = .error ("No audio recorded".data) ∧
    (stepA (runCfg (stepA c SAct.drain).1 evs) SAct.drain).2 = some [] := by
  refine ⟨rfl, ?_, ?_⟩
  · have h1 : (recordStop s).1 = ⟨false, []⟩ := by
      by_cases hb : s.buffer = [] <;> simp [recordStop, hb]
    rw [h1]
    rfl
  · have h2 : ((stepA c SAct.drain).1).buffer = [] := rfl
    have h3 := runCfg_buffer_of_no_push evs hevs (stepA c SAct.drain).1 h2
    show some ((runCfg (stepA c SAct.drain).1 evs).buffer) = some []
    rw [h3]

/-- Witness for `C8_stop_empty_fails` at a concrete input. -/
theorem C8_stop_empty_fails_witness :
    (∀ a ∈ [SAct.eventClear, SAct.check [9], SAct.ret], isPush a = false) ∧
    (recordStop ⟨false, []⟩).2 = .error ("No audio recorded".data) ∧
    (recordStop (recordStop ⟨true, [[5]]⟩).1).2 = .error ("No audio recorded".data) ∧
    (stepA (runCfg (stepA ⟨true, [], [[7]]⟩ SAct.drain).1
        [SAct.eventClear, SAct.check [9], SAct.ret]) SAct.drain).2 = some [] :=
  ⟨by decide,
    (C8_stop_empty_fails ⟨true, [[5]]⟩ ⟨true, [], [[7]]⟩
      [SAct.eventClear, SAct.check [9], SAct.ret] (by decide)).1,
    (C8_stop_empty_fails ⟨true, [[5]]⟩ ⟨true, [], [[7]]⟩
      [SAct.eventClear, SAct.check [9], SAct.ret] (by decide)).2.1,
    (C8_stop_empty_fails ⟨true, [[5]]⟩ ⟨true, [], [[7]]⟩
      [SAct.eventClear, SAct.check [9], SAct.ret] (by decide)).2.2⟩

/-! ## Claim C6 -/

/-- Claim C6, counterexample: `_split_transcript("ab.  cd. e", 9)`
returns `["ab. cd.", "e"]`.  The double space between the first two
sentence units was consumed by the sentence split and re-joined with a
single inserted space, so no choice of separator material around the
returned chunks reconstructs the original text: the round trip is not
lossless. -/
theorem C6_round_trip_counterexample :
    _split_transcript ("ab.  cd. e".data) 9 = ["ab. cd.".data, "e".data] ∧
    ¬ ∃ s0 s1 s2 : List Char,
        s0 ++ "ab. cd.".data ++ s1 ++ "e".data ++ s2 = "ab.  cd. e".data := by
  constructor
  · decide
  · rintro ⟨s0, s1, s2, h⟩
    have hinf : List.IsInfix ("ab. cd.".data) ("ab.  cd. e".data) :=
      ⟨s0, s1 ++ "e".data ++ s2, by simpa [List.append_assoc] using h⟩
    exact absurd hinf (by decide)

/-- The sentence-packing loop never returns an empty chunk list when a
group is pending. -/
theorem splitLoop_ne_nil (mc : Nat) :
    ∀ (sents cur : List (List Char)) (clen : Nat), cur ≠ [] →
      splitLoop mc sents cur clen ≠ [] := by
  intro sents
  induction sents with
  | nil =>
    intro cur clen hc
    simp [splitLoop, hc]
  | cons s rest ih =>
    intro cur clen hc
    rw [splitLoop]
    by_cases hs : s = []
    · simp only [hs, if_pos rfl, ite_true]
      exact ih cur clen hc
    · simp only [if_neg hs]
      by_cases hbig : mc < s.length
      · simp [hbig, hc]
      · simp only [if_neg hbig]
        by_cases hover : mc < clen + s.length + 1 ∧ cur ≠ []
        · simp [hover]
        · simp only [if_neg hover]
          exact ih (cur ++ [s]) (clen + s.length + 1) (by simp)

/-- Under the amended-claim hypotheses every chunk the packing loop
emits is non-empty. -/
theorem splitLoop_all_ne_nil (mc : Nat) :
    ∀ (sents cur : List (List Char)) (clen : Nat),
      (∀ u ∈ sents, u ≠ [] ∧ u.length ≤ mc ∧ strip u = u) →
      (∀ u ∈ cur, u ≠ [] ∧ strip u = u) →
      ∀ ch ∈ splitLoop mc sents cur clen, ch ≠ [] := by
  intro sents
  induction sents with
  | nil =>
    intro cur clen _ hcur ch hch
    by_cases hc : cur = []
    · simp [splitLoop, hc] at hch
    · simp only [splitLoop, if_neg hc] at hch
      simp only [List.mem_singleton] at hch
      subst hch
      obtain ⟨u, us, rfl⟩ := List.exists_cons_of_ne_nil hc
      have hu := hcur u (by simp)
      rw [joinStrip, strip_joinSp_eq hcur hc]
      exact joinSp_ne_nil hu.1
  | cons s rest ih =>
    intro cur clen hs hcur ch hch
    obtain ⟨hsne, hslen, hsstrip⟩ := hs s (by simp)
    have hrest : ∀ u ∈ rest, u ≠ [] ∧ u.length ≤ mc ∧ strip u = u :=
      fun u hu => hs u (by simp [hu])
    rw [splitLoop] at hch
    simp only [if_neg hsne, if_neg (by omega : ¬ mc < s.length)] at hch
    by_cases hover : mc < clen + s.length + 1 ∧ cur ≠ []
    · simp only [if_pos hover] at hch
      rcases List.mem_cons.mp hch with rfl | hch2
      · obtain ⟨u, us, hcu⟩ := List.exists_cons_of_ne_nil hover.2
        rw [joinStrip, strip_joinSp_eq hcur hover.2]
        rw [hcu]
        exact joinSp_ne_nil (hcur u (by rw [hcu]; simp)).1
      · exact ih [s] s.length hrest (by simp [hsne, hsstrip]) ch hch2
    · simp only [if_neg hover] at hch
      refine ih (cur ++ [s]) (clen + s.length + 1) hrest ?_ ch hch
      intro u hu
      rcases List.mem_append.mp hu with h1 | h1
      · exact hcur u h1
      · simp only [List.mem_singleton] at h1
        subst h1
        exact ⟨hsne, hsstrip⟩

/-- The packing loop is lossless with respect to the sentence units:
space-joining its chunks equals space-joining the pending group followed
by the remaining units, whenever every unit is non-empty, stripped and
within the bound. -/
theorem splitLoop_joinSp (mc : Nat) :
    ∀ (sents cur : List (List Char)) (clen : Nat),
      (∀ u ∈ sents, u ≠ [] ∧ u.length ≤ mc ∧ strip u = u) →
      (∀ u ∈ cur, u ≠ [] ∧ strip u = u) →
      joinSp (splitLoop mc sents cur clen) = joinSp (cur ++ sents) := by
  intro sents
  induction sents with
  | nil =>
    intro cur clen _ hcur
    by_cases hc : cur = []
    · simp [splitLoop, hc, joinSp]
    · simp only [splitLoop, if_neg hc, List.append_nil]
      calc joinSp [joinStrip cur] = joinStrip cur := rfl
        _ = joinSp cur := strip_joinSp_eq hcur hc
  | cons s rest ih =>
    intro cur clen hs hcur
    obtain ⟨hsne, hslen, hsstrip⟩ := hs s (by simp)
    have hrest : ∀ u ∈ rest, u ≠ [] ∧ u.length ≤ mc ∧ strip u = u :=
      fun u hu => hs u (by simp [hu])
    rw [splitLoop]
    simp only [if_neg hsne, if_neg (by omega : ¬ mc < s.length)]
    by_cases hover : mc < clen + s.length + 1 ∧ cur ≠ []
    · simp only [if_pos hover]
      have hrec := ih [s] s.length hrest (by simp [hsne, hsstrip])
      have hne := splitLoop_ne_nil mc rest [s] s.length (by simp)
      obtain ⟨y, t, hyt⟩ := List.exists_cons_of_ne_nil hne
      have h1 : joinSp (joinStrip cur :: splitLoop mc rest [s] s.length) =
          joinStrip cur ++ ' ' :: joinSp (splitLoop mc rest [s] s.length) := by
        rw [hyt]
        exact joinSp_cons_cons _ y t
      rw [h1, hrec, joinStrip, strip_joinSp_eq hcur hover.2]
      rw [joinSp_append hover.2 (by simp)]
      simp
    · simp only [if_neg hover]
      have hcur2 : ∀ u ∈ cur ++ [s], u ≠ [] ∧ strip u = u := by
        intro u hu
        rcases List.mem_append.mp hu with h1 | h1
        · exact hcur u h1
        · simp only [List.mem_singleton] at h1
          subst h1
          exact ⟨hsne, hsstrip⟩
      rw [ih (cur ++ [s]) (clen + s.length + 1) hrest hcur2]
      simp

/-- Claim C6 (amended): the round trip is lossless only at the level of
sentence units.  Whenever the input text is exactly its sentence units
joined by single spaces (so every inter-unit whitespace run is one
space, with no leading/trailing whitespace) and every unit is non-empty,
whitespace-stripped and of length at most `max_chars`, then re-joining
the returned chunks with single spaces reconstructs the text exactly.
In general the chunker loses the original inter-sentence whitespace
(normalized to one space — `C6_round_trip_counterexample`) and drops
whitespace at the `.strip()`-ed boundaries of hard-sliced oversized
sentences. -/
theorem C6_chunker_round_trip (text : List Char) (mc : Nat)
    (hsu : ∀ u ∈ splitSentences text, u ≠ [] ∧ u.length ≤ mc ∧ strip u = u)
    (hjoin : joinSp (splitSentences text) = text) :
    joinSp (_split_transcript text mc) = text := by
  rw [_split_transcript]
  by_cases hlen : text.length ≤ mc
  · simp [hlen, joinSp]
  · simp only [if_neg hlen]
    have hfilter : (splitLoop mc (splitSentences text) [] 0).filter (fun c => !c.isEmpty)
        = splitLoop mc (splitSentences text) [] 0 := by
      rw [List.filter_eq_self]
      intro a ha
      have := splitLoop_all_ne_nil mc (splitSentences text) [] 0 hsu (by simp) a ha
      simpa using this
    rw [hfilter, splitLoop_joinSp mc (splitSentences text) [] 0 hsu (by simp),
      List.nil_append, hjoin]

/-- Witness for `C6_chunker_round_trip` at a concrete input. -/
theorem C6_chunker_round_trip_witness :
    (∀ u ∈ splitSentences ("a. b. c".data), u ≠ [] ∧ u.length ≤ 4 ∧ strip u = u) ∧
    joinSp (splitSentences ("a. b. c".data)) = "a. b. c".data ∧
    joinSp (_split_transcript ("a. b. c".data) 4) = "a. b. c".data :=
  ⟨by decide, by decide, C6_chunker_round_trip ("a. b. c".data) 4 (by decide) (by decide)⟩

/-! ## Claims C7 and C10 -/

/-- A transcript whose strip is non-empty has a non-empty whitespace
collapse. -/
theorem collapsed_ne_nil {t : List Char} (h : strip t ≠ []) : joinSp (wsSplit t) ≠ [] := by
  have hex : ¬ ∀ c ∈ t, isWs c = true := fun hall => h (stripP_eq_nil_iff.mpr hall)
  have hdw : t.dropWhile isWs ≠ [] := fun hnil => hex (by
    intro c hc
    exact List.dropWhile_eq_nil_iff.mp hnil c hc)
  obtain ⟨c, rest, hd⟩ := List.exists_cons_of_ne_nil hdw
  rw [wsSplit]
  simp only [wsSplitF, hd]
  exact joinSp_ne_nil (by simp)

/-- A non-negative `rfind2` result points at an occurrence of the
two-character pattern. -/
theorem rfind2_spec (a b : Char) (l : List Char) :
    rfind2 a b l = -1 ∨
      ∃ i : Nat, rfind2 a b l = (i : Int) ∧ (l.drop i).take 2 = [a, b] := by
  rw [rfind2]
  suffices H : ∀ (is : List Nat) (acc : Int),
      (acc = -1 ∨ ∃ i : Nat, acc = (i : Int) ∧ (l.drop i).take 2 = [a, b]) →
      (is.foldl (fun ac i => if (l.drop i).take 2 = [a, b] then (i : Int) else ac) acc = -1 ∨
        ∃ i : Nat,
          is.foldl (fun ac i => if (l.drop i).take 2 = [a, b] then (i : Int) else ac) acc
            = (i : Int) ∧ (l.drop i).take 2 = [a, b]) by
    exact H _ (-1) (Or.inl rfl)
  intro is
  induction is with
  | nil => intro acc h; exact h
  | cons j js ih =>
    intro acc h
    rw [List.foldl_cons]
    by_cases hj : (l.drop j).take 2 = [a, b]
    · exact ih _ (Or.inr ⟨j, by simp [hj], hj⟩)
    · exact ih _ (by simpa [hj] using h)

/-- An element sitting at a found pattern position lies in the take. -/
theorem mem_take_of_drop_cons {l : List Char} {i : Nat} {a : Char} {w : List Char}
    (h : l.drop i = a :: w) : a ∈ l.take (i + 1) := by
  have h1 : l.take (i + 1) = l.take i ++ (l.drop i).take 1 := List.take_add l i 1
  rw [h1, h]
  simp

/-- `strip` keeps a list containing a non-whitespace character
non-empty. -/
theorem strip_ne_nil_of_mem {l : List Char} {a : Char} (ha : a ∈ l) (hw : isWs a = false) :
    strip l ≠ [] := by
  intro hnil
  have := stripP_eq_nil_iff.mp hnil a ha
  rw [hw] at this
  exact Bool.false_ne_true this

/-- The deterministic summary fallback is non-empty whenever the input
has non-whitespace content and the bound is positive. -/
theorem fallback_summary_ne_nil {t : List Char} (h : strip t ≠ []) (mcs : Nat) :
    _fallback_summary_text t mcs ≠ [] := by
  rw [_fallback_summary_text]
  by_cases hshort : (joinSp (wsSplit t)).length ≤ mcs
  · simpa [hshort] using collapsed_ne_nil h
  · simp only [if_neg hshort]
    have hlong : mcs < (joinSp (wsSplit t)).length := by omega
    by_cases hstop : (120 : Int) <
        max (rfind2 '.' ' ' ((joinSp (wsSplit t)).take mcs))
          (max (rfind2 '!' ' ' ((joinSp (wsSplit t)).take mcs))
            (rfind2 '?' ' ' ((joinSp (wsSplit t)).take mcs)))
    · simp only [if_pos hstop]
      set snip := (joinSp (wsSplit t)).take mcs with hsnip
      set m := max (rfind2 '.' ' ' snip) (max (rfind2 '!' ' ' snip) (rfind2 '?' ' ' snip))
        with hm
      have hcase : (∃ i : Nat, m = (i : Int) ∧ (snip.drop i).take 2 = ['.', ' ']) ∨
          (∃ i : Nat, m = (i : Int) ∧ (snip.drop i).take 2 = ['!', ' ']) ∨
          (∃ i : Nat, m = (i : Int) ∧ (snip.drop i).take 2 = ['?', ' ']) := by
        rcases max_choice (rfind2 '.' ' ' snip)
            (max (rfind2 '!' ' ' snip) (rfind2 '?' ' ' snip)) with h1 | h1
        · rcases rfind2_spec '.' ' ' snip with h2 | h2
          · rw [hm, h1, h2] at hstop; omega
          · exact Or.inl (by rw [hm, h1]; exact h2)
        · rcases max_choice (rfind2 '!' ' ' snip) (rfind2 '?' ' ' snip) with h3 | h3
          · rcases rfind2_spec '!' ' ' snip with h2 | h2
            · rw [hm, h1, h3, h2] at hstop; omega
            · exact Or.inr (Or.inl (by rw [hm, h1, h3]; exact h2))
          · rcases rfind2_spec '?' ' ' snip with h2 | h2
            · rw [hm, h1, h3, h2] at hstop; omega
            · exact Or.inr (Or.inr (by rw [hm, h1, h3]; exact h2))
      have hkey : ∃ (i : Nat) (ch : Char), m = (i : Int) ∧ isWs ch = false ∧
          ch ∈ snip.take (i + 1) := by
        rcases hcase with ⟨i, hi, hp⟩ | ⟨i, hi, hp⟩ | ⟨i, hi, hp⟩
        · refine ⟨i, '.', hi, by decide, ?_⟩
          have : snip.drop i = '.' :: ' ' :: (snip.drop i).drop 2 := by
            have := List.take_append_drop 2 (snip.drop i)
            rw [hp] at this
            simpa [List.drop_drop] using this.symm
          exact mem_take_of_drop_cons this
        · refine ⟨i, '!', hi, by decide, ?_⟩
          have : snip.drop i = '!' :: ' ' :: (snip.drop i).drop 2 := by
            have := List.take_append_drop 2 (snip.drop i)
            rw [hp] at this
            simpa [List.drop_drop] using this.symm
          exact mem_take_of_drop_cons this
        · refine ⟨i, '?', hi, by decide, ?_⟩
          have : snip.drop i = '?' :: ' ' :: (snip.drop i).drop 2 := by
            have := List.take_append_drop 2 (snip.drop i)
            rw [hp] at this
            simpa [List.drop_drop] using this.symm
          exact mem_take_of_drop_cons this
      obtain ⟨i, ch, hi, hch, hmem⟩ := hkey
      have htn : m.toNat = i := by rw [hi]; exact Int.toNat_natCast i
      rw [htn]
      exact strip_ne_nil_of_mem hmem hch
    · simp only [if_neg hstop]
      simp

/-- When every generation call returns empty text, the shared
model-then-fallback tail degrades to the deterministic full-text
fallback. -/
theorem finishSummary_all_empty (cfg : Cfg) (gen : GenOracle) (text prompt : List Char)
    (hgen : ∀ m p, gen m p = []) :
    finishSummary cfg gen text prompt = _fallback_summary_text text 1200 := by
  rw [finishSummary, genWithFallback]
  simp [hgen]

/-- Claim C7: for every transcript with non-whitespace content, if both
the primary and the fallback generation calls return empty text for
every per-chunk section-summary call and for the final synthesis call,
the summarizer's output is exactly the deterministic truncation fallback
applied to the full (stripped) input text, and that output is
non-empty. -/
theorem C7_summary_fallback (cfg : Cfg) (gen : GenOracle) (transcript : List Char)
    (hkey : cfg.apiKey = true) (hgen : ∀ m p, gen m p = [])
    (htext : strip transcript ≠ []) :
    summarize_transcript cfg gen transcript =
      .ok (_fallback_summary_text (strip transcript) 1200) ∧
    _fallback_summary_text (strip transcript) 1200 ≠ [] := by
  constructor
  · rw [summarize_transcript, if_neg (by simp [hkey])]
    simp only [if_neg htext]
    simp only [show ∀ p, finishSummary cfg gen (strip transcript) p =
        _fallback_summary_text (strip transcript) 1200 from
      fun p => finishSummary_all_empty cfg gen (strip transcript) p hgen]
    simp
  · exact fallback_summary_ne_nil (by rw [strip_fix]; exact htext) 1200

/-- Witness for `C7_summary_fallback` at a concrete input. -/
theorem C7_summary_fallback_witness :
    (⟨true, "m".data, "m".data, 12000, "m".data, "m".data⟩ : Cfg).apiKey = true ∧
    strip ("Hello world.".data) ≠ [] ∧
    summarize_transcript ⟨true, "m".data, "m".data, 12000, "m".data, "m".data⟩
        (fun _ _ => []) ("Hello world.".data) =
      .ok (_fallback_summary_text (strip ("Hello world.".data)) 1200) ∧
    _fallback_summary_text (strip ("Hello world.".data)) 1200 ≠ [] :=
  ⟨rfl, by decide,
    (C7_summary_fallback ⟨true, "m".data, "m".data, 12000, "m".data, "m".data⟩
      (fun _ _ => []) ("Hello world.".data) rfl (fun _ _ => rfl) (by decide)).1,
    (C7_summary_fallback ⟨true, "m".data, "m".data, 12000, "m".data, "m".data⟩
      (fun _ _ => []) ("Hello world.".data) rfl (fun _ _ => rfl) (by decide)).2⟩

/-- Claim C10: when the generative credentials are missing,
`summarize_transcript` raises the missing-credentials error for every
input — including the empty or whitespace-only transcript — because the
credentials check precedes the empty-input short-circuit; the
empty-transcript-returns-empty-summary path is reachable only with
credentials present. -/
theorem C10_credentials_before_empty (cfg : Cfg) (gen : GenOracle) (t : List Char) :
    (cfg.apiKey = false →
      summarize_transcript cfg gen t =
        .error ("Missing GOOGLE_SUMMARY_KEY for summarization.".data)) ∧
    (cfg.apiKey = true → strip t = [] → summarize_transcript cfg gen t = .ok []) := by
  constructor
  · intro h
    rw [summarize_transcript, if_pos h]
  · intro h1 h2
    rw [summarize_transcript, if_neg (by simp [h1])]
    simp [h2]

/-- Witness for `C10_credentials_before_empty` at concrete inputs,
including the empty transcript under a missing key. -/
theorem C10_credentials_before_empty_witness :
    (⟨false, "m".data, "m".data, 12000, "m".data, "m".data⟩ : Cfg).apiKey = false ∧
    summarize_transcript ⟨false, "m".data, "m".data, 12000, "m".data, "m".data⟩
        (fun _ _ => []) [] =
      .error ("Missing GOOGLE_SUMMARY_KEY for summarization.".data) ∧
    (⟨true, "m".data, "m".data, 12000, "m".data, "m".data⟩ : Cfg).apiKey = true ∧
    strip ([] : List Char) = [] ∧
    summarize_transcript ⟨true, "m".data, "m".data, 12000, "m".data, "m".data⟩
        (fun _ _ => []) [] = .ok [] :=
  ⟨rfl,
    (C10_credentials_before_empty ⟨false, "m".data, "m".data, 12000, "m".data, "m".data⟩
      (fun _ _ => []) []).1 rfl,
    rfl, rfl,
    (C10_credentials_before_empty ⟨true, "m".data, "m".data, 12000, "m".data, "m".data⟩
      (fun _ _ => []) []).2 rfl rfl⟩

/-! ## Claim C9 -/

/-- The last element of a non-empty `rstripP` result fails the
predicate. -/
theorem rstripP_last_false {p : Char → Bool} {l z : List Char} {b : Char}
    (h : rstripP p l = z ++ [b]) : p b = false := by
  rw [rstripP] at h
  have h2 : l.reverse.dropWhile p = b :: z.reverse := by
    have := congrArg List.reverse h
    simpa using this
  exact dropWhile_head_false h2

/-- Claim C9, counterexample to the "exactly a single layer" clause: on
a model result wrapped in two layers of quotes the code's post-processing
(`.strip("\"'")`) removes every wrapping quote character, returning
`Budget review`, whereas stripping exactly a single layer of wrapping
quotes would return `"Budget review"`. -/
theorem C9_single_layer_counterexample :
    generate_title ⟨true, "m".data, "m".data, 12000, "m".data, "m".data⟩
        (fun _ _ => ("\"\"Budget review\"\"").data) ("Team sync.".data)
      = "Budget review".data ∧
    cleanTitleOneLayer (("\"\"Budget review\"\"").data) = ("\"Budget review\"").data ∧
    "Budget review".data ≠ ("\"Budget review\"").data := by
  decide

/-- Claim C9 (amended): whenever the title generator uses a model result
— from the primary call, or from the reworded fallback-model call when
the primary result was empty and the fallback model is distinct — it
applies exactly the cleaning pipeline: collapse internal whitespace,
strip ALL wrapping quote characters (not a single layer), strip ALL
trailing sentence-terminal punctuation; and when the cleaned result is
empty it returns the heuristic fallback instead.  Moreover the cleaned
result never ends in sentence-terminal punctuation. -/
theorem C9_title_postprocess (cfg : Cfg) (gen : GenOracle) (t : List Char)
    (hkey : cfg.apiKey = true) (ht : strip t ≠ []) :
    (gen cfg.titleModel (titlePrompt (strip t)) ≠ [] →
      generate_title cfg gen t =
        (if cleanTitle (gen cfg.titleModel (titlePrompt (strip t))) = []
         then _fallback_title_text (strip t) 12
         else cleanTitle (gen cfg.titleModel (titlePrompt (strip t))))) ∧
    (gen cfg.titleModel (titlePrompt (strip t)) = [] →
     cfg.titleFallbackModel ≠ [] → cfg.titleFallbackModel ≠ cfg.titleModel →
     gen cfg.titleFallbackModel (titleFallbackPrompt (strip t)) ≠ [] →
      generate_title cfg gen t =
        (if cleanTitle (gen cfg.titleFallbackModel (titleFallbackPrompt (strip t))) = []
         then _fallback_title_text (strip t) 12
         else cleanTitle (gen cfg.titleFallbackModel (titleFallbackPrompt (strip t))))) ∧
    (∀ (r z : List Char) (b : Char), cleanTitle r = z ++ [b] → isSentPunct b = false) := by
  refine ⟨?_, ?_, ?_⟩
  · intro hr
    rw [generate_title, genWithFallback]
    simp [ht, hkey, hr]
  · intro hr0 hfb1 hfb2 hr2
    rw [generate_title, genWithFallback]
    simp [ht, hkey, hr0, hfb1, hfb2, hr2]
  · intro r z b h
    exact rstripP_last_false h

/-- Witness for `C9_title_postprocess`: one run through the primary-model
path and one through the fallback-model path, at concrete inputs. -/
theorem C9_title_postprocess_witness :
    (⟨true, "m".data, "m".data, 12000, "tm".data, "tf".data⟩ : Cfg).apiKey = true ∧
    strip ("Team sync.".data) ≠ [] ∧
    generate_title ⟨true, "m".data, "m".data, 12000, "tm".data, "tf".data⟩
        (fun _ _ => (" Budget  talk. ").data) ("Team sync.".data) = "Budget talk".data ∧
    generate_title ⟨true, "m".data, "m".data, 12000, "tm".data, "tf".data⟩
        (fun mdl _ => if mdl = "tm".data then [] else (" Next steps ").data)
        ("Team sync.".data) = "Next steps".data := by
  refine ⟨rfl, by decide, ?_, ?_⟩
  · rw [(C9_title_postprocess ⟨true, "m".data, "m".data, 12000, "tm".data, "tf".data⟩
      (fun _ _ => (" Budget  talk. ").data) ("Team sync.".data) rfl (by decide)).1
      (by decide)]
    decide
  · rw [(C9_title_postprocess ⟨true, "m".data, "m".data, 12000, "tm".data, "tf".data⟩
      (fun mdl _ => if mdl = "tm".data then [] else (" Next steps ").data)
      ("Team sync.".data) rfl (by decide)).2.1
      (by decide) (by decide) (by decide) (by decide)]
    decide

/-! ## Claims C4 and C5 -/

/-- Every window produced by the slicer is non-empty. -/
theorem sliceChunks_mem_ne_nil {k : Nat} :
    ∀ (n : Nat) (l : List Int), l.length ≤ n → ∀ w ∈ sliceChunks k l, w ≠ []
  | _, [], _, w, hw => by simp [sliceChunks] at hw
  | 0, c :: rest, h, w, hw => by simp at h
  | n + 1, c :: rest, h, w, hw => by
    rw [sliceChunks] at hw
    rcases List.mem_cons.mp hw with rfl | hw2
    · simp
    · refine sliceChunks_mem_ne_nil n (rest.drop (k - 1)) ?_ w hw2
      simp only [List.length_cons] at h
      have := List.length_drop (k - 1) rest
      omega

/-- The slicer produces exactly `⌈len / k⌉` windows. -/
theorem sliceChunks_length {k : Nat} (hk : 1 ≤ k) :
    ∀ (n : Nat) (l : List Int), l.length ≤ n →
      (sliceChunks k l).length = (l.length + k - 1) / k
  | _, [], _ => by
    simp only [sliceChunks, List.length_nil, Nat.zero_add]
    rw [Nat.div_eq_of_lt (by omega)]
  | 0, c :: rest, h => by simp at h
  | n + 1, c :: rest, h => by
    rw [sliceChunks]
    have hlen := List.length_drop (k - 1) rest
    have hrec := sliceChunks_length hk n (rest.drop (k - 1))
      (by simp only [List.length_cons] at h; omega)
    rw [List.length_cons, hrec, hlen]
    have h1 : (c :: rest).length = rest.length + 1 := rfl
    rw [h1]
    rcases le_or_lt (rest.length + 1) k with hle | hlt
    · have hz : rest.length - (k - 1) = 0 := by omega
      rw [hz]
      have h2 : rest.length + 1 + k - 1 = rest.length + k := by omega
      rw [h2, Nat.add_div_right _ (by omega), Nat.div_eq_of_lt (by omega),
        Nat.div_eq_of_lt (by omega)]
    · have h2 : rest.length - (k - 1) + k - 1 = rest.length := by omega
      have h3 : rest.length + 1 + k - 1 = (rest.length - (k - 1) + k - 1) + k := by omega
      rw [h2, h3, Nat.add_div_right _ (by omega), h2]

/-- Input of at most one window slices to a single window. -/
theorem sliceChunks_single {k : Nat} {l : List Int} (h1 : l ≠ []) (h2 : l.length ≤ k) :
    sliceChunks k l = [l] := by
  obtain ⟨c, rest, rfl⟩ := List.exists_cons_of_ne_nil h1
  rw [sliceChunks]
  simp only [List.length_cons] at h2
  rw [List.take_of_length_le (by omega), List.drop_eq_nil_of_le (by omega)]
  simp [sliceChunks]

/-- `_recognize_chunk` over an always-successful capability. -/
theorem recognize_ok (apiT : List Int → List RecResult) (w : List Int) :
    _recognize_chunk (fun x => Except.ok (apiT x)) w =
      .ok (if w.length = 0 then (([] : List Char), (none : Option (List Char)))
           else (recChunkText (apiT w), recChunkLang (apiT w))) := by
  rw [_recognize_chunk]
  by_cases h : w.length = 0 <;> simp [h]

/-- When every recognition call succeeds, the window loop collects the
non-empty per-window texts in order and the first truthy language. -/
theorem transcribeLoop_ok (apiT : List Int → List RecResult) :
    ∀ (ws : List (List Int)), (∀ w ∈ ws, w ≠ []) →
      ∀ (parts : List (List Char)) (lang : Option (List Char)),
        transcribeLoop (fun w => Except.ok (apiT w)) ws parts lang =
          .ok (strip (joinSp (parts ++
                ((ws.map (fun w => recChunkText (apiT w))).filter (fun t => !t.isEmpty)))),
            if lang = none then firstTruthyLang (ws.map (fun w => recChunkLang (apiT w)))
            else lang) := by
  intro ws
  induction ws with
  | nil =>
    intro _ parts lang
    rw [transcribeLoop]
    simp only [List.map_nil, List.filter_nil, List.append_nil, firstTruthyLang]
    by_cases h : lang = none <;> simp [h]
  | cons w rest ih =>
    intro hws parts lang
    have hw : w ≠ [] := hws w (by simp)
    have hrest : ∀ x ∈ rest, x ≠ [] := fun x hx => hws x (by simp [hx])
    have hlen : w.length ≠ 0 := by simpa [List.length_eq_zero] using hw
    rw [transcribeLoop, recognize_ok]
    simp only [if_neg hlen]
    rw [ih hrest]
    refine congrArg Except.ok ?_
    simp only [Prod.mk.injEq]
    refine ⟨?_, ?_⟩
    · -- text component
      by_cases ht : recChunkText (apiT w) = []
      · simp [ht]
      · obtain ⟨x, xs, hx⟩ := List.exists_cons_of_ne_nil ht
        simp [hx, List.append_assoc]
    · -- language component
      by_cases hl : lang = none
      · subst hl
        by_cases htr : truthyLang (recChunkLang (apiT w)) = true
        · have hnn : recChunkLang (apiT w) ≠ none := by
            intro hx
            rw [hx] at htr
            simp [truthyLang] at htr
          simp [htr, firstTruthyLang, hnn]
        · have hf : truthyLang (recChunkLang (apiT w)) = false := by
            revert htr
            cases truthyLang (recChunkLang (apiT w)) <;> simp
          simp [hf, firstTruthyLang]
      · simp [hl]

/-- Slicing a non-empty list yields at least one window. -/
theorem sliceChunks_ne_nil {k : Nat} {l : List Int} (h : l ≠ []) :
    sliceChunks k l ≠ [] := by
  obtain ⟨c, rest, rfl⟩ := List.exists_cons_of_ne_nil h
  rw [sliceChunks]
  simp

/-- With an always-successful capability the call list walks every
window. -/
theorem callsLoop_ok (apiT : List Int → List RecResult) :
    ∀ ws : List (List Int), callsLoop (fun w => Except.ok (apiT w)) ws = ws := by
  intro ws
  induction ws with
  | nil => rfl
  | cons w rest ih =>
    rw [callsLoop, recognize_ok]
    simp [ih]

/-- Claim C4, counterexample to the language-merge clause: a recording
of exactly one window whose recognition result carries the empty-string
language code.  The single-window fast path returns that code verbatim
(`some ""`), while the claimed merge rule — the language of the first
window whose result had one — yields no language at all. -/
theorem C4_single_window_language_counterexample :
    transcribe_audio (fun _ => Except.ok [([("hi".data)], [])]) 1 1 [0]
      = .ok ("hi".data, some ([] : List Char)) ∧
    sliceChunks (1 * max 1 1) ([0] : List Int) = [[0]] ∧
    firstTruthyLang ([[0]].map (fun _ => recChunkLang [([("hi".data)], [])])) = none ∧
    some ([] : List Char) ≠ (none : Option (List Char)) := by
  refine ⟨by decide, ?_, by decide, by decide⟩
  simp [sliceChunks]

/-- Claim C4 (amended): for `1 ≤ rate` and `chunk_seconds = cfg ≥ 1`,
the transcriber issues exactly `⌈len / (rate * cfg)⌉` recognition calls,
sequentially on the consecutive non-overlapping windows in order (final
window possibly shorter); the final text is the space-joined non-empty
per-window texts, trimmed.  The final language is the language of the
first window whose result carried a non-empty language code — EXCEPT in
the single-window fast path, which returns the sole window's language
code verbatim, possibly the empty string instead of null
(`C4_single_window_language_counterexample`). -/
theorem C4_window_merge (apiT : List Int → List RecResult) (rate cfg : Nat)
    (hr : 1 ≤ rate) (hc : 1 ≤ cfg) (samples : List Int) :
    transcribeCalls (fun w => Except.ok (apiT w)) rate cfg samples
      = sliceChunks (rate * cfg) samples ∧
    (sliceChunks (rate * cfg) samples).length
      = (samples.length + rate * cfg - 1) / (rate * cfg) ∧
    transcribe_audio (fun w => Except.ok (apiT w)) rate cfg samples =
      .ok (strip (joinSp (((sliceChunks (rate * cfg) samples).map
              (fun w => recChunkText (apiT w))).filter (fun t => !t.isEmpty))),
        match sliceChunks (rate * cfg) samples with
        | [w] => recChunkLang (apiT w)
        | _ => firstTruthyLang ((sliceChunks (rate * cfg) samples).map
                 (fun w => recChunkLang (apiT w)))) := by
  have hmax : max 1 cfg = cfg := Nat.max_eq_right hc
  have hsz : 1 ≤ rate * cfg := Nat.mul_pos hr hc
  refine ⟨?_, sliceChunks_length hsz samples.length samples le_rfl, ?_⟩
  · -- the calls
    by_cases h0 : samples.length = 0
    · have hnil : samples = [] := List.length_eq_zero.mp h0
      subst hnil
      rw [transcribeCalls]
      simp [sliceChunks]
    · rw [transcribeCalls, if_neg h0, hmax]
      by_cases h1 : samples.length ≤ rate * cfg
      · rw [if_pos h1,
          sliceChunks_single (fun hn => h0 (by simp [hn])) h1]
      · rw [if_neg h1, callsLoop_ok]
  · -- the merged result
    by_cases h0 : samples.length = 0
    · have hnil : samples = [] := List.length_eq_zero.mp h0
      subst hnil
      rw [transcribe_audio]
      simp [sliceChunks, firstTruthyLang, joinSp, strip, stripP, lstripP, rstripP]
    · rw [transcribe_audio, if_neg h0, hmax]
      by_cases h1 : samples.length ≤ rate * cfg
      · rw [if_pos h1, recognize_ok, if_neg h0,
          sliceChunks_single (fun hn => h0 (by simp [hn])) h1]
        refine congrArg Except.ok ?_
        simp only [Prod.mk.injEq, and_true]
        by_cases ht : recChunkText (apiT samples) = []
        · simp [ht, joinSp, strip, stripP, lstripP, rstripP]
        · have hst : strip (recChunkText (apiT samples)) = recChunkText (apiT samples) := by
            rw [recChunkText]
            exact strip_fix _
          obtain ⟨x, xs, hx⟩ := List.exists_cons_of_ne_nil ht
          simp only [List.map_cons, List.map_nil, List.filter_cons, List.filter_nil]
          rw [hx]
          simp only [List.isEmpty_cons, Bool.not_false, if_pos rfl]
          rw [← hx]
          simp [joinSp, hst]
      · rw [if_neg h1]
        have hne : samples ≠ [] := fun hn => h0 (by simp [hn])
        have hws := sliceChunks_mem_ne_nil (k := rate * cfg) samples.length samples le_rfl
        rw [transcribeLoop_ok apiT _ hws [] none]
        obtain ⟨c, rest, rfl⟩ := List.exists_cons_of_ne_nil hne
        have hdrop : rest.drop (rate * cfg - 1) ≠ [] := by
          intro hnil
          have := congrArg List.length hnil
          simp only [List.length_drop, List.length_nil] at this
          simp only [List.length_cons, Nat.not_le] at h1
          omega
        obtain ⟨w2, ws2, hw2⟩ :=
          List.exists_cons_of_ne_nil (sliceChunks_ne_nil (k := rate * cfg) hdrop)
        have hs : sliceChunks (rate * cfg) (c :: rest) =
            (c :: rest.take (rate * cfg - 1)) :: w2 :: ws2 := by
          rw [sliceChunks, hw2]
        rw [hs]
        simp

/-- Witness for `C4_window_merge` at a concrete three-sample, two-window
input. -/
theorem C4_window_merge_witness :
    ((1 : Nat) ≤ 1) ∧ ((1 : Nat) ≤ 2) ∧
    (transcribeCalls
          (fun w => Except.ok ((fun _ : List Int => [([("hi".data)], "en".data)]) w)) 1 2 [0, 1, 2]
        = sliceChunks (1 * 2) [0, 1, 2] ∧
      (sliceChunks (1 * 2) ([0, 1, 2] : List Int)).length
        = (([0, 1, 2] : List Int).length + 1 * 2 - 1) / (1 * 2) ∧
      transcribe_audio
          (fun w => Except.ok ((fun _ : List Int => [([("hi".data)], "en".data)]) w)) 1 2 [0, 1, 2]
        = .ok (strip (joinSp (((sliceChunks (1 * 2) ([0, 1, 2] : List Int)).map
                (fun w => recChunkText ((fun _ : List Int => [([("hi".data)], "en".data)]) w))).filter
                  (fun t => !t.isEmpty))),
            match sliceChunks (1 * 2) ([0, 1, 2] : List Int) with
            | [w] => recChunkLang ((fun _ : List Int => [([("hi".data)], "en".data)]) w)
            | _ => firstTruthyLang ((sliceChunks (1 * 2) ([0, 1, 2] : List Int)).map
                    (fun w => recChunkLang ((fun _ : List Int => [([("hi".data)], "en".data)]) w))))) :=
  ⟨by decide, by decide,
    C4_window_merge (fun _ => [([("hi".data)], "en".data)]) 1 2 (by decide) (by decide) [0, 1, 2]⟩

/-- A failing recognition call aborts the window loop with that error,
whatever was already accumulated. -/
theorem transcribeLoop_error (api : RecOracle) :
    ∀ (ws : List (List Int)) (k : Nat) (wk : List Int) (e : List Char),
      (∀ w ∈ ws, w ≠ []) →
      (∀ w ∈ ws.take k, ∃ r, api w = .ok r) →
      ws[k]? = some wk → api wk = .error e →
      ∀ (parts : List (List Char)) (lang : Option (List Char)),
        transcribeLoop api ws parts lang = .error e := by
  intro ws
  induction ws with
  | nil =>
    intro k wk e _ _ hk
    simp at hk
  | cons w rest ih =>
    intro k wk e hws hpre hk he parts lang
    cases k with
    | zero =>
      have hwk : wk = w := by simpa using hk.symm
      subst hwk
      have hw : wk ≠ [] := hws wk (by simp)
      rw [transcribeLoop, _recognize_chunk,
        if_neg (by simpa [List.length_eq_zero] using hw), he]
    | succ k =>
      have hw : w ≠ [] := hws w (by simp)
      obtain ⟨r, hr⟩ := hpre w (by simp)
      rw [transcribeLoop, _recognize_chunk,
        if_neg (by simpa [List.length_eq_zero] using hw), hr]
      exact ih k wk e (fun x hx => hws x (by simp [hx]))
        (fun x hx => hpre x (by simp [hx])) (by simpa using hk) he _ _

/-- Claim C5: if any single per-window recognition call fails, the whole
transcription aborts with that failure — every window before the failing
one succeeded, yet no partial transcript assembled from them is
returned: the result is exactly the propagated error. -/
theorem C5_failure_aborts (api : RecOracle) (rate cfg : Nat)
    (hr : 1 ≤ rate) (hc : 1 ≤ cfg) (samples : List Int) (k : Nat)
    (wk : List Int) (e : List Char)
    (hpre : ∀ w ∈ (sliceChunks (rate * cfg) samples).take k, ∃ r, api w = .ok r)
    (hk : (sliceChunks (rate * cfg) samples)[k]? = some wk)
    (he : api wk = .error e) :
    transcribe_audio api rate cfg samples = .error e := by
  have hmax : max 1 cfg = cfg := Nat.max_eq_right hc
  by_cases h0 : samples.length = 0
  · have hnil : samples = [] := List.length_eq_zero.mp h0
    subst hnil
    rw [show sliceChunks (rate * cfg) ([] : List Int) = [] from by rw [sliceChunks]] at hk
    simp at hk
  · rw [transcribe_audio, if_neg h0, hmax]
    by_cases h1 : samples.length ≤ rate * cfg
    · rw [sliceChunks_single (fun hn => h0 (by simp [hn])) h1] at hk
      have hk0 : k = 0 ∧ wk = samples := by
        cases k with
        | zero => exact ⟨rfl, by simpa using hk.symm⟩
        | succ k => simp at hk
      obtain ⟨rfl, rfl⟩ := hk0
      rw [if_pos h1, _recognize_chunk, if_neg h0, he]
    · rw [if_neg h1]
      exact transcribeLoop_error api _ k wk e
        (sliceChunks_mem_ne_nil samples.length samples le_rfl) hpre hk he [] none

/-- Witness for `C5_failure_aborts`: a two-window recording whose first
recognition call fails. -/
theorem C5_failure_aborts_witness :
    ((1 : Nat) ≤ 1) ∧
    (sliceChunks (1 * 1) ([0, 1] : List Int))[0]? = some [0] ∧
    (fun _ : List Int => (Except.error ("boom".data) :
        Except (List Char) (List RecResult))) [0] = .error ("boom".data) ∧
    transcribe_audio
        (fun _ : List Int => (Except.error ("boom".data) :
          Except (List Char) (List RecResult))) 1 1 [0, 1]
      = .error ("boom".data) := by
  refine ⟨by decide, ?_, rfl, ?_⟩
  · simp [sliceChunks]
  · exact C5_failure_aborts
      (fun _ => (Except.error ("boom".data) : Except (List Char) (List RecResult)))
      1 1 (by decide) (by decide) [0, 1] 0 [0] ("boom".data)
      (by intro w hw; simp at hw)
      (by simp [sliceChunks])
      rfl
